import Mathlib

/-! # Order service: ingestion path, cache and cache-aside read path

A shallow embedding of the core of the order service:

* `internal/models/errors.go`      : the sentinel errors (`Err`);
* `internal/cache/memory_cache.go` : `MemoryCache` and its methods;
* `internal/kafka/consumer.go`     : `Consumer.processMessage`, `Consumer.ConsumeClaim`,
                                     `OrderHandler.HandleOrder`;
* `internal/handlers/http.go`      : `HTTPHandler.GetOrder`, `HealthCheck`, `CacheStats`,
                                     `writeJSONResponse`, `writeErrorResponse`.

Conventions of the embedding.

* A Go map `map[string]*models.Order` is an association list with one entry per key;
  `mapAssign`, `mapIndex` and `mapDelete` are the three map primitives of the language.
* Where it matters that a map value is a reference (what `GetAll` returns), the maps live in a
  `Heap` and the cache struct `MemoryCacheRef` holds a reference; `MemoryCacheRef.view` gives the
  cache value `MemoryCache` that the other sections work with.
* A `*models.Order` is modelled by the order value it points to; no code of the service mutates
  an order through its pointer.
* A Go result `error` is `Except Err Unit`; a result `(*models.Order, error)` is
  `Except Err Order`.
* The durable store is an external collaborator reached through the `OrderRepository`
  interface. An implementation is a record of state transformers over an arbitrary store
  state `σ`, so it can fail, succeed, or change its answers from one call to the next.
* Every call that crosses a component boundary (repository or cache) is appended to the
  ghost trace `World.calls`, so that "calls", "does not call" and "exactly one query" can be
  stated. Logging is not modelled.
-/

namespace OrderService

/-! ## `internal/models` -/

/-- The sentinel errors of `internal/models/errors.go`, together with errors created outside
that package (`other`: store drivers, decoders, stubs) and errors wrapped with a context message
by `fmt.Errorf("...: %w", err)` (`wrap`). -/
inductive Err where
  | ErrInvalidOrderUID
  | ErrInvalidTrackNumber
  | ErrEmptyItems
  | ErrOrderNotFound
  | ErrInvalidJSON
  | other (msg : String)
  | wrap (context : String) (cause : Err)
  deriving DecidableEq, Repr

/-- Modelled from the spec: the delivery block of an order (`internal/models/order.go` is not
among the sources); fields as published by `scripts/producer.go`. -/
structure Delivery where
  Name : String := ""
  Phone : String := ""
  Zip : String := ""
  City : String := ""
  Address : String := ""
  Region : String := ""
  Email : String := ""
  deriving DecidableEq, Repr

/-- Modelled from the spec: the payment block of an order (`internal/models/order.go` is not
among the sources); fields as published by `scripts/producer.go`. -/
structure Payment where
  Transaction : String := ""
  RequestID : String := ""
  Currency : String := ""
  Provider : String := ""
  Amount : Int := 0
  PaymentDt : Int := 0
  Bank : String := ""
  DeliveryCost : Int := 0
  GoodsTotal : Int := 0
  CustomFee : Int := 0
  deriving DecidableEq, Repr

/-- Modelled from the spec: one line item of an order (`internal/models/order.go` is not among
the sources); fields as published by `scripts/producer.go`. -/
structure Item where
  ChrtID : Int := 0
  TrackNumber : String := ""
  Price : Int := 0
  Rid : String := ""
  Name : String := ""
  Sale : Int := 0
  Size : String := ""
  TotalPrice : Int := 0
  NmID : Int := 0
  Brand : String := ""
  Status : Int := 0
  deriving DecidableEq, Repr

/-- Modelled from the spec: the order record `models.Order` (`internal/models/order.go` is not
among the sources). The spec names `orderUID`, `trackNumber`, delivery, payment, `items` and
metadata; the field list is the one published by `scripts/producer.go`, with the creation
timestamp as seconds since the epoch. -/
structure Order where
  OrderUID : String := ""
  TrackNumber : String := ""
  Entry : String := ""
  Delivery : Delivery := {}
  Payment : Payment := {}
  Items : List Item := []
  Locale : String := ""
  InternalSignature : String := ""
  CustomerID : String := ""
  DeliveryService : String := ""
  ShardKey : String := ""
  SmID : Int := 0
  DateCreated : Int := 0
  OofShard : String := ""
  deriving DecidableEq, Repr

/-- Modelled from the spec: `Order.Validate` (`internal/models/order.go` is not among the
sources; only its call in `Consumer.processMessage` and the sentinel errors are). The spec:
"returns success or fails with a ValidationError naming the first violated rule, checked in
order: empty `orderUID` → fails; empty `trackNumber` → fails; empty `items` → fails". -/
def Order.Validate (o : Order) : Except Err Unit :=
  if o.OrderUID = "" then .error .ErrInvalidOrderUID
  else if o.TrackNumber = "" then .error .ErrInvalidTrackNumber
  else if o.Items.length = 0 then .error .ErrEmptyItems
  else .ok ()

/-! ## Go maps -/

/-- The Go statement `m[k] = v`: overwrite the entry of `k`, or insert one. -/
def mapAssign (m : List (String × Order)) (k : String) (v : Order) : List (String × Order) :=
  (k, v) :: m.filter (fun e => e.1 != k)

/-- The Go expression `v, ok := m[k]`: `some v` when the key is present, else `none`. -/
def mapIndex (m : List (String × Order)) (k : String) : Option Order :=
  m.lookup k

/-- The Go statement `delete(m, k)`. -/
def mapDelete (m : List (String × Order)) (k : String) : List (String × Order) :=
  m.filter (fun e => e.1 != k)

/-! ## `internal/cache/memory_cache.go` -/

/-- The struct `MemoryCache`: the guarded map `orders`. The mutex is the serialisation of the
method calls; the logger is not modelled. -/
structure MemoryCache where
  orders : List (String × Order)
  deriving DecidableEq, Repr

/-- The constructor `NewMemoryCache`: an empty map. -/
def NewMemoryCache : MemoryCache := ⟨[]⟩

/-- The method `Set`: `c.orders[orderUID] = order`. -/
def MemoryCache.Set (c : MemoryCache) (orderUID : String) (order : Order) : MemoryCache :=
  ⟨mapAssign c.orders orderUID order⟩

/-- The method `Get`: `some order` stands for `(order, true)`, `none` for `(nil, false)`. -/
def MemoryCache.Get (c : MemoryCache) (orderUID : String) : Option Order :=
  match mapIndex c.orders orderUID with
  | some order => some order
  | none => none

/-- The method `Delete`: `delete(c.orders, orderUID)`. -/
def MemoryCache.Delete (c : MemoryCache) (orderUID : String) : MemoryCache :=
  ⟨mapDelete c.orders orderUID⟩

/-- The method `Clear`: `c.orders = make(map[string]*models.Order)`. -/
def MemoryCache.Clear (_c : MemoryCache) : MemoryCache :=
  ⟨[]⟩

/-- The method `Size`: `len(c.orders)`. -/
def MemoryCache.Size (c : MemoryCache) : Nat :=
  c.orders.length

/-- The method `GetAll`: a fresh map that receives every entry of `c.orders`. -/
def MemoryCache.GetAll (c : MemoryCache) : List (String × Order) :=
  c.orders.foldr (fun e result => mapAssign result e.1 e.2) []

/-! ## The collaborators and the world they act on -/

/-- The interface `OrderRepository` (the union of the three declarations of that name, in
packages cache, kafka and handlers). Each method maps the store state to a result and the next
store state. -/
structure OrderRepository (σ : Type) where
  SaveOrder : Order → σ → Except Err Unit × σ
  GetOrder : String → σ → Except Err Order × σ
  GetAllOrders : σ → Except Err (List Order) × σ

/-- One call across a component boundary. -/
inductive Call where
  | repoSaveOrder (order : Order)
  | repoGetOrder (orderUID : String)
  | repoGetAllOrders
  | cacheGet (orderUID : String)
  | cacheSet (orderUID : String) (order : Order)
  | cacheSize
  deriving DecidableEq, Repr

/-- The state the handlers act on: the durable store, the cache, and the ghost trace of the
calls made so far (oldest first). -/
structure World (σ : Type) where
  store : σ
  cache : MemoryCache
  calls : List Call

/-- The method `LoadFromRepository`: `GetAllOrders`, then one map assignment per order, in the
order of the returned slice. On an error nothing is assigned. -/
def MemoryCache.LoadFromRepository {σ : Type} (repo : OrderRepository σ) (w : World σ) :
    Except Err Unit × World σ :=
  match repo.GetAllOrders w.store with
  | (.error err, s) =>
    (.error err, { store := s, cache := w.cache, calls := w.calls ++ [.repoGetAllOrders] })
  | (.ok orders, s) =>
    (.ok (),
      { store := s,
        cache := ⟨orders.foldl (fun m order => mapAssign m order.OrderUID order) w.cache.orders⟩,
        calls := w.calls ++ [.repoGetAllOrders] })

/-! ## `internal/kafka/consumer.go` -/

/-- The method `OrderHandler.HandleOrder`: `SaveOrder`, return its error if any, else
`cache.Set(order.OrderUID, order)` and return nil. -/
def OrderHandler.HandleOrder {σ : Type} (repo : OrderRepository σ) (order : Order)
    (w : World σ) : Except Err Unit × World σ :=
  match repo.SaveOrder order w.store with
  | (.error err, s) =>
    (.error err, { store := s, cache := w.cache, calls := w.calls ++ [.repoSaveOrder order] })
  | (.ok _, s) =>
    (.ok (),
      { store := s,
        cache := w.cache.Set order.OrderUID order,
        calls := w.calls ++ [.repoSaveOrder order, .cacheSet order.OrderUID order] })

/-- The struct `sarama.ConsumerMessage`, as far as the consumer reads it. -/
structure ConsumerMessage where
  Topic : String := ""
  Partition : Int := 0
  Offset : Int := 0
  Value : List UInt8 := []
  deriving DecidableEq, Repr

/-- The interface `MessageHandler`: `HandleOrder(order) error`, acting on a state `S`. -/
abbrev MessageHandler (S : Type) := Order → S → Except Err Unit × S

/-- The struct `Consumer`, as far as message processing reads it: the registered handlers, and
the decoder `json.Unmarshal(_, &order)` of the standard library, taken as a parameter. -/
structure Consumer (S : Type) where
  unmarshal : List UInt8 → Except Err Order
  handlers : List (MessageHandler S)

/-- The method `AddHandler`: `c.handlers = append(c.handlers, handler)`. -/
def Consumer.AddHandler {S : Type} (c : Consumer S) (handler : MessageHandler S) : Consumer S :=
  { c with handlers := c.handlers ++ [handler] }

/-- The loop `for _, handler := range c.handlers` of `processMessage`: the first handler that
fails ends the loop with its error wrapped. -/
def Consumer.runHandlers {S : Type} : List (MessageHandler S) → Order → S → Except Err Unit × S
  | [], _, s => (.ok (), s)
  | handler :: rest, order, s =>
    match handler order s with
    | (.error err, s1) => (.error (.wrap "handler failed to process order" err), s1)
    | (.ok _, s1) => Consumer.runHandlers rest order s1

/-- The method `Consumer.processMessage`: decode, validate, run the handlers. -/
def Consumer.processMessage {S : Type} (c : Consumer S) (message : ConsumerMessage) (s : S) :
    Except Err Unit × S :=
  match c.unmarshal message.Value with
  | .error err => (.error (.wrap "failed to unmarshal message" err), s)
  | .ok order =>
    match order.Validate with
    | .error err => (.error err, s)
    | .ok _ => Consumer.runHandlers c.handlers order s

/-- A scalar JSON value of a response object. -/
inductive JsonValue where
  | str (s : String)
  | int (n : Int)
  deriving DecidableEq, Repr

/-- The value handed to the JSON encoder: an order, or a Go map literal (an object, with its
fields in the encoder's key order). -/
inductive Body where
  | order (o : Order)
  | object (fields : List (String × JsonValue))
  deriving DecidableEq, Repr

/-- What a handler writes to its `http.ResponseWriter`. -/
structure Response where
  statusCode : Nat
  contentType : String
  body : Body
  deriving DecidableEq, Repr

/-- The method `writeJSONResponse`. -/
def HTTPHandler.writeJSONResponse (statusCode : Nat) (data : Body) : Response :=
  { statusCode := statusCode, contentType := "application/json", body := data }

/-- The method `writeErrorResponse`: the map literal with the one key `error`. -/
def HTTPHandler.writeErrorResponse (statusCode : Nat) (message : String) : Response :=
  HTTPHandler.writeJSONResponse statusCode (.object [("error", .str message)])

/-- The method `HTTPHandler.GetOrder`, on the route variable `order_uid`. -/
def HTTPHandler.GetOrder {σ : Type} (repo : OrderRepository σ) (orderUID : String)
    (w : World σ) : Response × World σ :=
  if orderUID = "" then
    (HTTPHandler.writeErrorResponse 400 "order_uid is required", w)
  else
    match w.cache.Get orderUID with
    | some order =>
      (HTTPHandler.writeJSONResponse 200 (.order order),
        { store := w.store, cache := w.cache, calls := w.calls ++ [.cacheGet orderUID] })
    | none =>
      match repo.GetOrder orderUID w.store with
      | (.error err, s) =>
        let w1 : World σ :=
          { store := s, cache := w.cache,
            calls := w.calls ++ [.cacheGet orderUID, .repoGetOrder orderUID] }
        if err = .ErrOrderNotFound then
          (HTTPHandler.writeErrorResponse 404 "order not found", w1)
        else
          (HTTPHandler.writeErrorResponse 500 "internal server error", w1)
      | (.ok order, s) =>
        (HTTPHandler.writeJSONResponse 200 (.order order),
          { store := s,
            cache := w.cache.Set orderUID order,
            calls := w.calls ++
              [.cacheGet orderUID, .repoGetOrder orderUID, .cacheSet orderUID order] })

/-- The method `HTTPHandler.HealthCheck`. -/
def HTTPHandler.HealthCheck {σ : Type} (w : World σ) : Response × World σ :=
  (HTTPHandler.writeJSONResponse 200
      (.object [("cache_size", .int w.cache.Size), ("status", .str "ok")]),
    { w with calls := w.calls ++ [.cacheSize] })

/-- The method `HTTPHandler.CacheStats`. -/
def HTTPHandler.CacheStats {σ : Type} (w : World σ) : Response × World σ :=
  (HTTPHandler.writeJSONResponse 200 (.object [("cache_size", .int w.cache.Size)]),
    { w with calls := w.calls ++ [.cacheSize] })


/-! ## Sample data and stub collaborators -/

/-- The line item of the end-to-end example. -/
def sampleItem : Item :=
  { ChrtID := 9934930, TrackNumber := "WBILMTESTTRACK", Price := 453, Name := "Mascaras",
    TotalPrice := 317, Brand := "Vivienne Sabo", Status := 202 }

/-- The order of the end-to-end example. -/
def sampleOrder : Order :=
  { OrderUID := "b563feb7b2b84b6test", TrackNumber := "WBILMTESTTRACK", Entry := "WBIL",
    Items := [sampleItem], Locale := "en", CustomerID := "test" }

/-- A second order, with another key. -/
def sampleOrder2 : Order :=
  { OrderUID := "test_order_12345", TrackNumber := "TRACK12345", Entry := "WBIL",
    Items := [{ sampleItem with ChrtID := 12345, Name := "Phone" }], Locale := "ru" }

/-- A repository stub over a store without content, every method of which fails with `err`. -/
def failingRepo (err : Err) : OrderRepository Unit :=
  { SaveOrder := fun _ s => (.error err, s)
    GetOrder := fun _ s => (.error err, s)
    GetAllOrders := fun s => (.error err, s) }

/-- The world at start-up: a store state, the cache of `NewMemoryCache`, no call made yet. -/
def World.init {σ : Type} (s : σ) : World σ :=
  { store := s, cache := NewMemoryCache, calls := [] }

/-- Modelled from the spec: the state of the durable store (package `internal/repository` is
not among the sources), "a key→order map": one row per `orderUID`. -/
abbrev Store := List (String × Order)

/-- Modelled from the spec: the durable store behind `OrderRepository` (package
`internal/repository` is not among the sources). `saveOrder` is "an idempotent upsert keyed by
`orderUID`", `getOrder` answers `Order | NotFound`, `getAllOrders` is a "full snapshot". A call
made under `fault = some err` fails with `err` and leaves the store as it was. -/
def mapRepo (fault : Option Err) : OrderRepository Store :=
  { SaveOrder := fun order s =>
      match fault with
      | some err => (.error err, s)
      | none => (.ok (), mapAssign s order.OrderUID order)
    GetOrder := fun orderUID s =>
      match fault with
      | some err => (.error err, s)
      | none =>
        match mapIndex s orderUID with
        | some order => (.ok order, s)
        | none => (.error .ErrOrderNotFound, s)
    GetAllOrders := fun s =>
      match fault with
      | some err => (.error err, s)
      | none => (.ok (s.map Prod.snd), s) }

/-- A store holding the two sample orders. -/
def sampleStore : Store :=
  [(sampleOrder.OrderUID, sampleOrder), (sampleOrder2.OrderUID, sampleOrder2)]

/-- The handlers `hs`, invoked one after the other on `order` from state `s`, all return nil and
leave the state `s'`. -/
def Consumer.HandlersSucceed {S : Type} : List (MessageHandler S) → Order → S → S → Prop
  | [], _, s, s' => s' = s
  | handler :: rest, order, s, s' =>
    (handler order s).1 = .ok () ∧ Consumer.HandlersSucceed rest order (handler order s).2 s'

/-- A decoder for the examples: payload `[1]` is the example order, `[2]` an order without a
track number, anything else is malformed. -/
def sampleUnmarshal (value : List UInt8) : Except Err Order :=
  if value = [1] then .ok sampleOrder
  else if value = [2] then .ok { sampleOrder with TrackNumber := "" }
  else .error (.other "unexpected end of JSON input")

/-- The consumer as `cmd/main.go` wires it: one handler, the `OrderHandler` over the
repository. -/
def mainConsumer {σ : Type} (unmarshal : List UInt8 → Except Err Order)
    (repo : OrderRepository σ) : Consumer (World σ) :=
  Consumer.AddHandler { unmarshal := unmarshal, handlers := [] } (OrderHandler.HandleOrder repo)

/-- A store state is a key→order map whose rows are keyed by their own `orderUID`: no key
occurs twice, and the order under key `k` has `OrderUID = k`. -/
def StoreWF (s : Store) : Prop :=
  (s.map Prod.fst).Nodup ∧ ∀ e ∈ s, e.2.OrderUID = e.1

/-- One call into the service in the sequential model, with the fault (if any) that the store
raises during it. -/
inductive Op where
  | LoadFromRepository (fault : Option Err)
  | HandleOrder (order : Order) (fault : Option Err)
  | GetOrder (orderUID : String) (fault : Option Err)
  deriving DecidableEq, Repr

/-- The world after one call. -/
def Op.run (op : Op) (w : World Store) : World Store :=
  match op with
  | .LoadFromRepository fault => (MemoryCache.LoadFromRepository (mapRepo fault) w).2
  | .HandleOrder order fault => (OrderHandler.HandleOrder (mapRepo fault) order w).2
  | .GetOrder orderUID fault => (HTTPHandler.GetOrder (mapRepo fault) orderUID w).2

/-- The world after a sequence of calls, oldest first. -/
def runOps (ops : List Op) (w : World Store) : World Store :=
  ops.foldl (fun w op => op.run w) w

/-- Every cache entry is the store's current row for its key: `cache[k] = v` implies
`store[k] = v`. -/
def CacheBehindStore (w : World Store) : Prop :=
  ∀ k v, w.cache.Get k = some v → mapIndex w.store k = some v

/-- The cache after a serialised sequence of `Set(key, order)` calls, oldest first. -/
def applySets (calls : List (String × Order)) (c : MemoryCache) : MemoryCache :=
  calls.foldl (fun c e => c.Set e.1 e.2) c

/-! ## Maps as references: the cache in memory

A Go map value is a reference: two variables may name the same map, and a write through one
is seen through the other. To state that `GetAll` returns a map of its own, the maps are placed
in a heap and the cache struct holds a reference into it. -/

/-- The maps allocated so far: `cell r` is the content of the map with reference `r`, and the
references below `next` are the ones handed out. -/
structure Heap where
  next : Nat
  cell : Nat → List (String × Order)

/-- A heap without any map. -/
def Heap.empty : Heap := { next := 0, cell := fun _ => [] }

/-- The content of the map behind a reference. -/
def Heap.read (h : Heap) (r : Nat) : List (String × Order) := h.cell r

/-- Replace the content of the map behind a reference (every map statement is a read of the
content, a map primitive, and a write). -/
def Heap.write (h : Heap) (r : Nat) (m : List (String × Order)) : Heap :=
  { next := h.next, cell := fun i => if i = r then m else h.cell i }

/-- The Go expression `make(map[string]*models.Order)`: a reference not handed out before, to
an empty map. -/
def Heap.make (h : Heap) : Nat × Heap :=
  (h.next, { next := h.next + 1, cell := fun i => if i = h.next then [] else h.cell i })

/-- The reference has been handed out by `make`. -/
def Heap.allocated (h : Heap) (r : Nat) : Prop := r < h.next

/-- The struct `MemoryCache` in memory: its field `orders` is a reference to a map. -/
structure MemoryCacheRef where
  orders : Nat
  deriving DecidableEq, Repr

/-- The constructor `NewMemoryCache`, in memory: `orders: make(...)`. -/
def MemoryCacheRef.New (h : Heap) : MemoryCacheRef × Heap :=
  (⟨(Heap.make h).1⟩, (Heap.make h).2)

/-- The method `Set`, in memory: `c.orders[orderUID] = order`. -/
def MemoryCacheRef.Set (c : MemoryCacheRef) (orderUID : String) (order : Order) (h : Heap) :
    Heap :=
  h.write c.orders (mapAssign (h.read c.orders) orderUID order)

/-- The method `Get`, in memory. -/
def MemoryCacheRef.Get (c : MemoryCacheRef) (orderUID : String) (h : Heap) : Option Order :=
  match mapIndex (h.read c.orders) orderUID with
  | some order => some order
  | none => none

/-- The method `Delete`, in memory: `delete(c.orders, orderUID)`. -/
def MemoryCacheRef.Delete (c : MemoryCacheRef) (orderUID : String) (h : Heap) : Heap :=
  h.write c.orders (mapDelete (h.read c.orders) orderUID)

/-- The method `Clear`, in memory: the field `orders` is pointed at a new map; the old map is
not written. -/
def MemoryCacheRef.Clear (_c : MemoryCacheRef) (h : Heap) : MemoryCacheRef × Heap :=
  (⟨(Heap.make h).1⟩, (Heap.make h).2)

/-- The method `Size`, in memory: `len(c.orders)`. -/
def MemoryCacheRef.Size (c : MemoryCacheRef) (h : Heap) : Nat :=
  (h.read c.orders).length

/-- The method `GetAll`, in memory: `result := make(...)`, then `result[k] = v` for every entry
of `c.orders`, then `return result`. The language leaves the order of a `range` over a map open;
the entries are taken last to first. -/
def MemoryCacheRef.GetAll (c : MemoryCacheRef) (h : Heap) : Nat × Heap :=
  let result := (Heap.make h).1
  let h1 := (Heap.make h).2
  (result,
    (h1.read c.orders).foldr
      (fun e hh => hh.write result (mapAssign (hh.read result) e.1 e.2)) h1)

/-- The method `LoadFromRepository`, in memory: on success `c.orders[order.OrderUID] = order`
for every order of the slice, in order; on an error no map is written. -/
def MemoryCacheRef.LoadFromRepository {σ : Type} (repo : OrderRepository σ) (c : MemoryCacheRef)
    (s : σ) (h : Heap) : Except Err Unit × σ × Heap :=
  match repo.GetAllOrders s with
  | (.error err, s1) => (.error err, s1, h)
  | (.ok orders, s1) =>
    (.ok (), s1,
      orders.foldl
        (fun hh order => hh.write c.orders (mapAssign (hh.read c.orders) order.OrderUID order))
        h)

/-- The cache value that a cache struct in memory stands for. -/
def MemoryCacheRef.view (c : MemoryCacheRef) (h : Heap) : MemoryCache :=
  ⟨h.read c.orders⟩

/-- What can happen after `GetAll` has returned the map `result`: a method call on the cache,
or the caller adding or removing a key in the map it was given. -/
inductive CopyOp where
  | cacheSet (orderUID : String) (order : Order)
  | cacheDelete (orderUID : String)
  | cacheClear
  | cacheLoadFromRepository
  | resultAssign (key : String) (order : Order)
  | resultDelete (key : String)
  deriving DecidableEq, Repr

/-- The step is a method call on the cache. -/
def CopyOp.onCacheSide : CopyOp → Bool
  | .resultAssign _ _ => false
  | .resultDelete _ => false
  | _ => true

/-- One step in memory, on the store state, the heap and the cache struct; `result` is the
reference that `GetAll` returned. -/
def CopyOp.run {σ : Type} (repo : OrderRepository σ) (result : Nat) :
    CopyOp → σ × Heap × MemoryCacheRef → σ × Heap × MemoryCacheRef
  | .cacheSet orderUID order, (s, h, c) => (s, c.Set orderUID order h, c)
  | .cacheDelete orderUID, (s, h, c) => (s, c.Delete orderUID h, c)
  | .cacheClear, (s, h, c) => (s, (c.Clear h).2, (c.Clear h).1)
  | .cacheLoadFromRepository, (s, h, c) =>
    ((c.LoadFromRepository repo s h).2.1, (c.LoadFromRepository repo s h).2.2, c)
  | .resultAssign key order, (s, h, c) =>
    (s, h.write result (mapAssign (h.read result) key order), c)
  | .resultDelete key, (s, h, c) =>
    (s, h.write result (mapDelete (h.read result) key), c)

/-- A sequence of steps in memory, oldest first. -/
def CopyOp.runAll {σ : Type} (repo : OrderRepository σ) (result : Nat) (ops : List CopyOp)
    (st : σ × Heap × MemoryCacheRef) : σ × Heap × MemoryCacheRef :=
  ops.foldl (fun st op => CopyOp.run repo result op st) st

/-- What a step does to the cache alone, the caller's map left out: the method of
`MemoryCache` it names, and nothing for a step on the caller's map. -/
def CopyOp.onCache {σ : Type} (repo : OrderRepository σ) :
    CopyOp → σ × MemoryCache → σ × MemoryCache
  | .cacheSet orderUID order, (s, m) => (s, m.Set orderUID order)
  | .cacheDelete orderUID, (s, m) => (s, m.Delete orderUID)
  | .cacheClear, (s, m) => (s, m.Clear)
  | .cacheLoadFromRepository, (s, m) =>
    ((MemoryCache.LoadFromRepository repo { store := s, cache := m, calls := [] }).2.store,
     (MemoryCache.LoadFromRepository repo { store := s, cache := m, calls := [] }).2.cache)
  | .resultAssign _ _, st => st
  | .resultDelete _, st => st

/-- What a step does to the caller's map alone, the cache left out. -/
def CopyOp.onResult : CopyOp → List (String × Order) → List (String × Order)
  | .resultAssign key order, m => mapAssign m key order
  | .resultDelete key, m => mapDelete m key
  | _, m => m

/-- A repository stub over a store without content whose `GetAllOrders` returns `orders` and
whose other methods fail. -/
def snapshotRepo (orders : List Order) : OrderRepository Unit :=
  { SaveOrder := fun _ s => (.error (.other "read only"), s)
    GetOrder := fun _ s => (.error .ErrOrderNotFound, s)
    GetAllOrders := fun s => (.ok orders, s) }

/-- A cache in memory for the examples: made by `NewMemoryCache` on the heap without maps, then
two `Set` calls. -/
def sampleCacheRef : MemoryCacheRef := (MemoryCacheRef.New Heap.empty).1

/-- The heap of the example cache: its map holds the two sample orders. -/
def sampleHeap : Heap :=
  sampleCacheRef.Set "test_order_12345" sampleOrder2
    (sampleCacheRef.Set "b563feb7b2b84b6test" sampleOrder (MemoryCacheRef.New Heap.empty).2)

/-! # Theorems -/

/-! ## Go maps and the cache -/

theorem lookup_filter_ne (m : List (String × Order)) (k k' : String) (h : k' ≠ k) :
    (m.filter (fun e => e.1 != k)).lookup k' = m.lookup k' := by
  induction m with
  | nil => rfl
  | cons e rest ih =>
    obtain ⟨a, b⟩ := e
    by_cases hak : a = k
    · subst hak
      have hne : (k' == a) = false := by simpa using h
      simp [List.filter_cons, List.lookup_cons, hne, ih]
    · have hak' : (a != k) = true := by simpa using hak
      by_cases hka : k' = a
      · subst hka
        simp [List.filter_cons, List.lookup_cons, hak']
      · have hne : (k' == a) = false := by simpa using hka
        simp [List.filter_cons, List.lookup_cons, hak', hne, ih]

theorem lookup_filter_self (m : List (String × Order)) (k : String) :
    (m.filter (fun e => e.1 != k)).lookup k = none := by
  induction m with
  | nil => rfl
  | cons e rest ih =>
    obtain ⟨a, b⟩ := e
    by_cases hak : a = k
    · subst hak
      simp [List.filter_cons, ih]
    · have hak' : (a != k) = true := by simpa using hak
      have hne : (k == a) = false := by simpa using (Ne.symm hak)
      simp [List.filter_cons, List.lookup_cons, hak', hne, ih]

theorem mapIndex_mapAssign_self (m : List (String × Order)) (k : String) (v : Order) :
    mapIndex (mapAssign m k v) k = some v := by
  simp [mapIndex, mapAssign, List.lookup_cons]

theorem mapIndex_mapAssign_ne (m : List (String × Order)) (k k' : String) (v : Order)
    (h : k' ≠ k) : mapIndex (mapAssign m k v) k' = mapIndex m k' := by
  have hne : (k' == k) = false := by simpa using h
  simp [mapIndex, mapAssign, List.lookup_cons, hne, lookup_filter_ne m k k' h]

theorem MemoryCache.Get_eq (c : MemoryCache) (k : String) :
    c.Get k = mapIndex c.orders k := by
  unfold MemoryCache.Get
  cases mapIndex c.orders k <;> rfl

theorem MemoryCache.Get_Set_self (c : MemoryCache) (k : String) (v : Order) :
    (c.Set k v).Get k = some v := by
  rw [MemoryCache.Get_eq]
  exact mapIndex_mapAssign_self c.orders k v

theorem MemoryCache.Get_Set_ne (c : MemoryCache) (k k' : String) (v : Order) (h : k' ≠ k) :
    (c.Set k v).Get k' = c.Get k' := by
  rw [MemoryCache.Get_eq, MemoryCache.Get_eq]
  exact mapIndex_mapAssign_ne c.orders k k' v h

theorem lookup_of_mem_nodup (m : List (String × Order)) (k : String) (v : Order)
    (hnd : (m.map Prod.fst).Nodup) (hmem : (k, v) ∈ m) : m.lookup k = some v := by
  induction m with
  | nil => simp at hmem
  | cons e rest ih =>
    obtain ⟨a, b⟩ := e
    simp only [List.map_cons, List.nodup_cons] at hnd
    rcases List.mem_cons.mp hmem with heq | hrest
    · simp only [Prod.mk.injEq] at heq
      obtain ⟨rfl, rfl⟩ := heq
      simp [List.lookup_cons]
    · have hne : (k == a) = false := by
        have : k ≠ a := by
          rintro rfl
          exact hnd.1 (List.mem_map.mpr ⟨(k, v), hrest, rfl⟩)
        simpa using this
      simp [List.lookup_cons, hne, ih hnd.2 hrest]

theorem mapAssign_keys_nodup (m : List (String × Order)) (k : String) (v : Order)
    (hnd : (m.map Prod.fst).Nodup) : ((mapAssign m k v).map Prod.fst).Nodup := by
  simp only [mapAssign, List.map_cons, List.nodup_cons]
  refine ⟨?_, ?_⟩
  · intro hmem
    obtain ⟨e, he, hk⟩ := List.mem_map.mp hmem
    have := (List.mem_filter.mp he).2
    simp [hk] at this
  · exact List.Nodup.sublist (List.Sublist.map Prod.fst (List.filter_sublist m)) hnd

theorem mapIndex_foldl_mapAssign (l : List Order) (m : List (String × Order)) (k : String)
    (v : Order)
    (h : mapIndex (l.foldl (fun m order => mapAssign m order.OrderUID order) m) k = some v) :
    (v ∈ l ∧ v.OrderUID = k) ∨ mapIndex m k = some v := by
  induction l generalizing m with
  | nil => exact Or.inr h
  | cons o rest ih =>
    simp only [List.foldl_cons] at h
    rcases ih _ h with ⟨hmem, hk⟩ | hprev
    · exact Or.inl ⟨List.mem_cons_of_mem _ hmem, hk⟩
    · by_cases hko : k = o.OrderUID
      · subst hko
        rw [mapIndex_mapAssign_self] at hprev
        simp only [Option.some.injEq] at hprev
        subst hprev
        exact Or.inl ⟨List.mem_cons_self _ _, rfl⟩
      · rw [mapIndex_mapAssign_ne _ _ _ _ hko] at hprev
        exact Or.inr hprev

/-! ## The heap and the cache in memory -/

theorem Heap.read_write_same (h : Heap) (r : Nat) (m : List (String × Order)) :
    (h.write r m).read r = m := by
  simp [Heap.read, Heap.write]

theorem Heap.read_write_ne (h : Heap) (r r' : Nat) (m : List (String × Order)) (hne : r' ≠ r) :
    (h.write r m).read r' = h.read r' := by
  simp [Heap.read, Heap.write, hne]

theorem Heap.read_make_old (h : Heap) (r : Nat) (hr : h.allocated r) :
    (Heap.make h).2.read r = h.read r := by
  have hne : r ≠ h.next := Nat.ne_of_lt hr
  simp [Heap.read, Heap.make, hne]

theorem Heap.read_make_new (h : Heap) : (Heap.make h).2.read (Heap.make h).1 = [] := by
  simp [Heap.read, Heap.make]

theorem foldr_mapAssign_nodup (m : List (String × Order)) (hnd : (m.map Prod.fst).Nodup) :
    m.foldr (fun e result => mapAssign result e.1 e.2) [] = m := by
  induction m with
  | nil => rfl
  | cons e rest ih =>
    obtain ⟨a, b⟩ := e
    simp only [List.map_cons, List.nodup_cons] at hnd
    rw [List.foldr_cons, ih hnd.2]
    simp only [mapAssign]
    congr 1
    apply List.filter_eq_self.mpr
    intro e he
    have hne : e.1 ≠ a := by
      intro heq
      exact hnd.1 (heq ▸ List.mem_map.mpr ⟨e, he, rfl⟩)
    simpa using hne

theorem Heap.foldr_assign (r : Nat) (l : List (String × Order)) (h : Heap) :
    (l.foldr (fun e hh => hh.write r (mapAssign (hh.read r) e.1 e.2)) h).read r
      = l.foldr (fun e result => mapAssign result e.1 e.2) (h.read r) ∧
    (∀ r', r' ≠ r →
      (l.foldr (fun e hh => hh.write r (mapAssign (hh.read r) e.1 e.2)) h).read r'
        = h.read r') ∧
    (l.foldr (fun e hh => hh.write r (mapAssign (hh.read r) e.1 e.2)) h).next = h.next := by
  induction l with
  | nil => exact ⟨rfl, fun _ _ => rfl, rfl⟩
  | cons e rest ih =>
    obtain ⟨h1, h2, h3⟩ := ih
    simp only [List.foldr_cons]
    refine ⟨?_, ?_, ?_⟩
    · rw [Heap.read_write_same, h1]
    · intro r' hne
      rw [Heap.read_write_ne _ _ _ _ hne]
      exact h2 r' hne
    · exact h3

theorem Heap.foldl_assign (r : Nat) (l : List Order) (h : Heap) :
    (l.foldl (fun hh order => hh.write r (mapAssign (hh.read r) order.OrderUID order)) h).read r
      = l.foldl (fun m order => mapAssign m order.OrderUID order) (h.read r) ∧
    (∀ r', r' ≠ r →
      (l.foldl (fun hh order => hh.write r (mapAssign (hh.read r) order.OrderUID order)) h).read
          r' = h.read r') ∧
    (l.foldl (fun hh order => hh.write r (mapAssign (hh.read r) order.OrderUID order)) h).next
      = h.next := by
  induction l generalizing h with
  | nil => exact ⟨rfl, fun _ _ => rfl, rfl⟩
  | cons o rest ih =>
    obtain ⟨h1, h2, h3⟩ := ih (h.write r (mapAssign (h.read r) o.OrderUID o))
    simp only [List.foldl_cons]
    refine ⟨?_, ?_, ?_⟩
    · rw [h1, Heap.read_write_same]
    · intro r' hne
      rw [h2 r' hne, Heap.read_write_ne _ _ _ _ hne]
    · rw [h3]
      rfl

theorem MemoryCacheRef.GetAll_spec (c : MemoryCacheRef) (h : Heap)
    (hc : h.allocated c.orders) :
    (c.GetAll h).1 = h.next ∧
    (c.GetAll h).2.next = h.next + 1 ∧
    (c.GetAll h).2.read (c.GetAll h).1 = (c.view h).GetAll ∧
    (∀ r, h.allocated r → (c.GetAll h).2.read r = h.read r) := by
  have hne : c.orders ≠ h.next := Nat.ne_of_lt hc
  have hold : (Heap.make h).2.read c.orders = h.read c.orders := Heap.read_make_old h c.orders hc
  obtain ⟨h1, h2, h3⟩ := Heap.foldr_assign (Heap.make h).1 (h.read c.orders) (Heap.make h).2
  refine ⟨rfl, ?_, ?_, ?_⟩
  · simp only [MemoryCacheRef.GetAll, hold]
    rw [h3]
    rfl
  · simp only [MemoryCacheRef.GetAll, hold]
    rw [h1, Heap.read_make_new]
    rfl
  · intro r hr
    have hr' : r ≠ (Heap.make h).1 := Nat.ne_of_lt hr
    simp only [MemoryCacheRef.GetAll, hold]
    rw [h2 r hr']
    exact Heap.read_make_old h r hr

/-! ## The write path: `OrderHandler.HandleOrder` -/

/-- C1: if the store's `SaveOrder` fails, `HandleOrder` returns that failure, the cache after
the call is the cache before it, and the only call made is the `SaveOrder` itself (so `cache.Set`
is not called); in particular a key absent from the cache before the call is absent after it. -/
theorem HandleOrder_save_failure_keeps_cache {σ : Type} (repo : OrderRepository σ)
    (order : Order) (w : World σ) (err : Err)
    (hfail : (repo.SaveOrder order w.store).1 = .error err) :
    (OrderHandler.HandleOrder repo order w).1 = .error err ∧
    (OrderHandler.HandleOrder repo order w).2.cache = w.cache ∧
    (OrderHandler.HandleOrder repo order w).2.calls = w.calls ++ [.repoSaveOrder order] ∧
    (∀ k v, Call.cacheSet k v ∈ (OrderHandler.HandleOrder repo order w).2.calls →
      Call.cacheSet k v ∈ w.calls) ∧
    (w.cache = NewMemoryCache →
      (OrderHandler.HandleOrder repo order w).2.cache.Get order.OrderUID = none) := by
  unfold OrderHandler.HandleOrder
  rcases hsave : repo.SaveOrder order w.store with ⟨r, s⟩
  rw [hsave] at hfail
  simp only at hfail
  subst hfail
  refine ⟨rfl, rfl, rfl, ?_, ?_⟩
  · intro k v hmem
    simpa using hmem
  · intro hempty
    simp only [hempty]
    rfl

/-- C1, at a store stub that always fails and the start-up cache: the failure is returned and
the cache has no entry for the order. -/
theorem HandleOrder_save_failure_keeps_cache_witness :
    ((failingRepo (.other "connection refused")).SaveOrder sampleOrder (World.init ()).store).1
        = .error (.other "connection refused") ∧
    (OrderHandler.HandleOrder (failingRepo (.other "connection refused")) sampleOrder
        (World.init ())).1 = .error (.other "connection refused") ∧
    (OrderHandler.HandleOrder (failingRepo (.other "connection refused")) sampleOrder
        (World.init ())).2.cache.Get sampleOrder.OrderUID = none :=
  ⟨rfl,
   (HandleOrder_save_failure_keeps_cache (failingRepo (.other "connection refused")) sampleOrder
      (World.init ()) (.other "connection refused") rfl).1,
   (HandleOrder_save_failure_keeps_cache (failingRepo (.other "connection refused")) sampleOrder
      (World.init ()) (.other "connection refused") rfl).2.2.2.2 rfl⟩

/-- C2: for every order (validated or not) and every prior cache state, when `SaveOrder`
returns no error `HandleOrder` succeeds and afterwards `cache.Get(order.OrderUID)` finds the
input order, whatever the cache held under that key before; the cache is the prior cache with
one `Set` of that key, and every other key reads as before. -/
theorem HandleOrder_success_caches_order {σ : Type} (repo : OrderRepository σ)
    (order : Order) (w : World σ)
    (hsave : (repo.SaveOrder order w.store).1 = .ok ()) :
    (OrderHandler.HandleOrder repo order w).1 = .ok () ∧
    (OrderHandler.HandleOrder repo order w).2.cache.Get order.OrderUID = some order ∧
    (OrderHandler.HandleOrder repo order w).2.cache = w.cache.Set order.OrderUID order ∧
    (∀ k, k ≠ order.OrderUID →
      (OrderHandler.HandleOrder repo order w).2.cache.Get k = w.cache.Get k) := by
  unfold OrderHandler.HandleOrder
  rcases hrun : repo.SaveOrder order w.store with ⟨r, s⟩
  rw [hrun] at hsave
  simp only at hsave
  subst hsave
  refine ⟨rfl, ?_, rfl, ?_⟩
  · exact MemoryCache.Get_Set_self w.cache order.OrderUID order
  · intro k hk
    exact MemoryCache.Get_Set_ne w.cache order.OrderUID k order hk

/-- C2, at a cache that already holds an older order under the key: after a successful
`HandleOrder` the key reads as the new order. -/
theorem HandleOrder_success_caches_order_witness :
    ((mapRepo none).SaveOrder sampleOrder []).1 = .ok () ∧
    (NewMemoryCache.Set sampleOrder.OrderUID { sampleOrder with TrackNumber := "OLD" }).Get
        sampleOrder.OrderUID = some { sampleOrder with TrackNumber := "OLD" } ∧
    (OrderHandler.HandleOrder (mapRepo none) sampleOrder
        { store := [],
          cache := NewMemoryCache.Set sampleOrder.OrderUID
            { sampleOrder with TrackNumber := "OLD" },
          calls := [] }).2.cache.Get sampleOrder.OrderUID = some sampleOrder :=
  ⟨rfl, by decide,
   (HandleOrder_success_caches_order (mapRepo none) sampleOrder
      { store := [],
        cache := NewMemoryCache.Set sampleOrder.OrderUID
          { sampleOrder with TrackNumber := "OLD" },
        calls := [] } rfl).2.1⟩

/-! ## The validator -/

/-- C3: `Order.Validate` accepts exactly the records whose `orderUID`, `trackNumber` and `items`
are all non-empty, fails exactly when one of the three is empty, and a failure names the first
violated rule: `ErrInvalidOrderUID` for an empty `orderUID`, else `ErrInvalidTrackNumber` for an
empty `trackNumber`, else `ErrEmptyItems`. -/
theorem Validate_rejects_exactly_first_rule (o : Order) :
    (o.Validate = .ok () ↔ o.OrderUID ≠ "" ∧ o.TrackNumber ≠ "" ∧ o.Items ≠ []) ∧
    ((∃ err, o.Validate = .error err) ↔ o.OrderUID = "" ∨ o.TrackNumber = "" ∨ o.Items = []) ∧
    (o.OrderUID = "" → o.Validate = .error .ErrInvalidOrderUID) ∧
    (o.OrderUID ≠ "" → o.TrackNumber = "" → o.Validate = .error .ErrInvalidTrackNumber) ∧
    (o.OrderUID ≠ "" → o.TrackNumber ≠ "" → o.Items = [] →
      o.Validate = .error .ErrEmptyItems) := by
  unfold Order.Validate
  by_cases h1 : o.OrderUID = ""
  · simp [h1]
  · by_cases h2 : o.TrackNumber = ""
    · simp [h1, h2]
    · by_cases h3 : o.Items = []
      · simp [h1, h2, h3]
      · simp [h1, h2, h3]

/-- C3, at three records: one with every required field empty fails on `orderUID`, one with
only `orderUID` set fails on `trackNumber`, and the end-to-end example is accepted. -/
theorem Validate_rejects_exactly_first_rule_witness :
    ({} : Order).Validate = .error .ErrInvalidOrderUID ∧
    ({ OrderUID := "x" } : Order).Validate = .error .ErrInvalidTrackNumber ∧
    sampleOrder.Validate = .ok () :=
  ⟨(Validate_rejects_exactly_first_rule {}).2.2.1 rfl,
   (Validate_rejects_exactly_first_rule { OrderUID := "x" }).2.2.2.1 (by decide) rfl,
   (Validate_rejects_exactly_first_rule sampleOrder).1.2 ⟨by decide, by decide, by decide⟩⟩

/-! ## The read path: `HTTPHandler.GetOrder` -/

/-- C4: `GetOrder` writes one response, fixed by the four exclusive and exhaustive cases:
400 for an empty `orderUID`; 200 with the order when the cache holds the key; on a cache miss,
200 with the order the store returns, 404 when the store returns `ErrOrderNotFound`, 500 when it
returns any other error. The status is always one of the four, and every response that is not
a 200 carries an object with the single field `error`. -/
theorem GetOrder_response_cases {σ : Type} (repo : OrderRepository σ) (orderUID : String)
    (w : World σ) :
    (orderUID = "" →
      (HTTPHandler.GetOrder repo orderUID w).1
        = { statusCode := 400, contentType := "application/json",
            body := .object [("error", .str "order_uid is required")] : Response }) ∧
    (∀ order, orderUID ≠ "" → w.cache.Get orderUID = some order →
      (HTTPHandler.GetOrder repo orderUID w).1
        = { statusCode := 200, contentType := "application/json",
            body := .order order : Response }) ∧
    (∀ order, orderUID ≠ "" → w.cache.Get orderUID = none →
      (repo.GetOrder orderUID w.store).1 = .ok order →
      (HTTPHandler.GetOrder repo orderUID w).1
        = { statusCode := 200, contentType := "application/json",
            body := .order order : Response }) ∧
    (orderUID ≠ "" → w.cache.Get orderUID = none →
      (repo.GetOrder orderUID w.store).1 = .error .ErrOrderNotFound →
      (HTTPHandler.GetOrder repo orderUID w).1
        = { statusCode := 404, contentType := "application/json",
            body := .object [("error", .str "order not found")] : Response }) ∧
    (∀ err, orderUID ≠ "" → w.cache.Get orderUID = none →
      (repo.GetOrder orderUID w.store).1 = .error err → err ≠ .ErrOrderNotFound →
      (HTTPHandler.GetOrder repo orderUID w).1
        = { statusCode := 500, contentType := "application/json",
            body := .object [("error", .str "internal server error")] : Response }) ∧
    (HTTPHandler.GetOrder repo orderUID w).1.statusCode ∈ [200, 400, 404, 500] ∧
    ((HTTPHandler.GetOrder repo orderUID w).1.statusCode ≠ 200 →
      ∃ message, (HTTPHandler.GetOrder repo orderUID w).1.body
        = .object [("error", .str message)]) := by
  unfold HTTPHandler.GetOrder
  by_cases hempty : orderUID = ""
  · simp [hempty, HTTPHandler.writeErrorResponse, HTTPHandler.writeJSONResponse]
  · cases hget : w.cache.Get orderUID with
    | some cached =>
      simp [hempty, HTTPHandler.writeJSONResponse]
    | none =>
      rcases hrepo : repo.GetOrder orderUID w.store with ⟨r, s⟩
      cases r with
      | ok fetched =>
        simp [hempty, HTTPHandler.writeJSONResponse]
      | error err =>
        by_cases hnf : err = .ErrOrderNotFound
        · simp [hempty, hnf, HTTPHandler.writeErrorResponse, HTTPHandler.writeJSONResponse]
        · simp [hempty, hnf, HTTPHandler.writeErrorResponse, HTTPHandler.writeJSONResponse]

/-- C4, at the end-to-end examples: an empty id gives 400, the stored example order gives 200
with that order, an id that does not exist gives 404, a store fault gives 500, and a cached
order gives 200 without the store. -/
theorem GetOrder_response_cases_witness :
    (HTTPHandler.GetOrder (mapRepo none) "" (World.init sampleStore)).1
      = { statusCode := 400, contentType := "application/json",
          body := .object [("error", .str "order_uid is required")] : Response } ∧
    (HTTPHandler.GetOrder (mapRepo none) "b563feb7b2b84b6test" (World.init sampleStore)).1
      = { statusCode := 200, contentType := "application/json",
          body := .order sampleOrder : Response } ∧
    (HTTPHandler.GetOrder (mapRepo none) "does-not-exist" (World.init sampleStore)).1
      = { statusCode := 404, contentType := "application/json",
          body := .object [("error", .str "order not found")] : Response } ∧
    (HTTPHandler.GetOrder (mapRepo (some (.other "timeout"))) "b563feb7b2b84b6test"
        (World.init sampleStore)).1
      = { statusCode := 500, contentType := "application/json",
          body := .object [("error", .str "internal server error")] : Response } ∧
    (HTTPHandler.GetOrder (failingRepo (.other "timeout")) "b563feb7b2b84b6test"
        { store := (), cache := NewMemoryCache.Set "b563feb7b2b84b6test" sampleOrder,
          calls := [] }).1
      = { statusCode := 200, contentType := "application/json",
          body := .order sampleOrder : Response } :=
  ⟨(GetOrder_response_cases (mapRepo none) "" (World.init sampleStore)).1 rfl,
   (GetOrder_response_cases (mapRepo none) "b563feb7b2b84b6test"
      (World.init sampleStore)).2.2.1 sampleOrder (by decide) (by decide) rfl,
   (GetOrder_response_cases (mapRepo none) "does-not-exist"
      (World.init sampleStore)).2.2.2.1 (by decide) (by decide) rfl,
   (GetOrder_response_cases (mapRepo (some (.other "timeout"))) "b563feb7b2b84b6test"
      (World.init sampleStore)).2.2.2.2.1 (.other "timeout") (by decide) (by decide)
      rfl (by decide),
   (GetOrder_response_cases (failingRepo (.other "timeout")) "b563feb7b2b84b6test"
      { store := (), cache := NewMemoryCache.Set "b563feb7b2b84b6test" sampleOrder,
        calls := [] }).2.1 sampleOrder (by decide) (by decide)⟩

theorem Consumer.runHandlers_ok_iff {S : Type} (hs : List (MessageHandler S)) (order : Order)
    (s s' : S) :
    Consumer.runHandlers hs order s = (.ok (), s') ↔ Consumer.HandlersSucceed hs order s s' := by
  induction hs generalizing s with
  | nil =>
    simp only [Consumer.runHandlers, Consumer.HandlersSucceed, Prod.mk.injEq, true_and]
    exact eq_comm
  | cons handler rest ih =>
    simp only [Consumer.runHandlers, Consumer.HandlersSucceed]
    rcases hrun : handler order s with ⟨r, s1⟩
    cases r with
    | error err => simp
    | ok u => simpa using ih s1

/-- C8: `processMessage` decodes, then validates, then runs the handlers. A payload that fails
to decode gives the decode error wrapped, an order that fails `Validate` gives that validation
error, and in both cases the state the handlers act on (store, cache and trace, for the
`OrderHandler`) is returned as it was, whatever the registered handlers are: none is invoked.
It returns nil with state `s'` exactly when the payload decodes to an order that passes
`Validate` and on which every registered handler, invoked in turn, returns nil, leaving `s'`. -/
theorem processMessage_rejects_before_handlers {S : Type} (c : Consumer S)
    (message : ConsumerMessage) (s : S) :
    (∀ err, c.unmarshal message.Value = .error err →
      c.processMessage message s = (.error (.wrap "failed to unmarshal message" err), s)) ∧
    (∀ order err, c.unmarshal message.Value = .ok order → order.Validate = .error err →
      c.processMessage message s = (.error err, s)) ∧
    (∀ s', c.processMessage message s = (.ok (), s') ↔
      ∃ order, c.unmarshal message.Value = .ok order ∧ order.Validate = .ok () ∧
        Consumer.HandlersSucceed c.handlers order s s') := by
  refine ⟨?_, ?_, ?_⟩
  · intro err hdec
    simp [Consumer.processMessage, hdec]
  · intro order err hdec hval
    simp [Consumer.processMessage, hdec, hval]
  · intro s'
    unfold Consumer.processMessage
    cases hdec : c.unmarshal message.Value with
    | error err => simp
    | ok order =>
      cases hval : order.Validate with
      | error err => simp [hval]
      | ok u =>
        simp only [Except.ok.injEq, exists_eq_left', hval, true_and]
        exact Consumer.runHandlers_ok_iff c.handlers order s s'

/-- C8, at the consumer wired as in `cmd/main.go` over an empty store and cache: a malformed
payload and an order without a track number are rejected with the world as it was, and the
example order is accepted when its one handler succeeds. -/
theorem processMessage_rejects_before_handlers_witness :
    Consumer.processMessage (mainConsumer sampleUnmarshal (mapRepo none)) { Value := [7] }
        (World.init [])
      = (.error (.wrap "failed to unmarshal message" (.other "unexpected end of JSON input")),
          World.init []) ∧
    Consumer.processMessage (mainConsumer sampleUnmarshal (mapRepo none)) { Value := [2] }
        (World.init [])
      = (.error .ErrInvalidTrackNumber, World.init []) ∧
    Consumer.processMessage (mainConsumer sampleUnmarshal (mapRepo none)) { Value := [1] }
        (World.init [])
      = (.ok (), (OrderHandler.HandleOrder (mapRepo none) sampleOrder (World.init [])).2) :=
  have h := fun (v : List UInt8) =>
    processMessage_rejects_before_handlers (mainConsumer sampleUnmarshal (mapRepo none))
      { Value := v } (World.init [])
  ⟨(h [7]).1 (.other "unexpected end of JSON input") rfl,
   (h [2]).2.1 { sampleOrder with TrackNumber := "" } .ErrInvalidTrackNumber rfl rfl,
   ((h [1]).2.2 _).2 ⟨sampleOrder, rfl, rfl, rfl, rfl⟩⟩

/-! ## The cache is never ahead of the store -/

theorem StoreWF_mapAssign (s : Store) (order : Order) (hwf : StoreWF s) :
    StoreWF (mapAssign s order.OrderUID order) := by
  refine ⟨mapAssign_keys_nodup s order.OrderUID order hwf.1, ?_⟩
  intro e he
  simp only [mapAssign, List.mem_cons] at he
  rcases he with rfl | he
  · rfl
  · exact hwf.2 e (List.mem_filter.mp he).1

theorem CacheBehindStore_set (w : World Store) (s : Store) (calls : List Call) (k : String)
    (v : Order) (hinv : ∀ k' v', k' ≠ k → w.cache.Get k' = some v' → mapIndex s k' = some v')
    (hk : mapIndex s k = some v) :
    CacheBehindStore { store := s, cache := w.cache.Set k v, calls := calls } := by
  intro k' v' hget
  simp only at hget
  by_cases hkk : k' = k
  · subst hkk
    rw [MemoryCache.Get_Set_self] at hget
    simp only [Option.some.injEq] at hget
    subst hget
    exact hk
  · rw [MemoryCache.Get_Set_ne _ _ _ _ hkk] at hget
    exact hinv k' v' hkk hget

theorem Op.run_keeps_invariant (op : Op) (w : World Store) (hwf : StoreWF w.store)
    (hinv : CacheBehindStore w) :
    StoreWF (op.run w).store ∧ CacheBehindStore (op.run w) := by
  cases op with
  | LoadFromRepository fault =>
    cases fault with
    | some err => exact ⟨hwf, hinv⟩
    | none =>
      refine ⟨hwf, ?_⟩
      intro k v hget
      simp only [Op.run, MemoryCache.LoadFromRepository, mapRepo] at hget ⊢
      rw [MemoryCache.Get_eq] at hget
      rcases mapIndex_foldl_mapAssign _ _ k v hget with ⟨hmem, hk⟩ | hold
      · obtain ⟨e, he, hev⟩ := List.mem_map.mp hmem
        obtain ⟨a, b⟩ := e
        simp only at hev
        subst hev
        have hkey := hwf.2 (a, b) he
        simp only at hkey
        rw [hk] at hkey
        subst hkey
        exact lookup_of_mem_nodup w.store k b hwf.1 he
      · exact hinv k v (by rw [MemoryCache.Get_eq]; exact hold)
  | HandleOrder order fault =>
    cases fault with
    | some err => exact ⟨hwf, hinv⟩
    | none =>
      refine ⟨StoreWF_mapAssign w.store order hwf, ?_⟩
      simp only [Op.run, OrderHandler.HandleOrder, mapRepo]
      apply CacheBehindStore_set
      · intro k' v' hne hget
        rw [mapIndex_mapAssign_ne _ _ _ _ hne]
        exact hinv k' v' hget
      · exact mapIndex_mapAssign_self _ _ _
  | GetOrder orderUID fault =>
    simp only [Op.run, HTTPHandler.GetOrder]
    by_cases hempty : orderUID = ""
    · simp only [hempty, if_true]
      exact ⟨hwf, hinv⟩
    · simp only [hempty, if_false]
      cases hget : w.cache.Get orderUID with
      | some cached => exact ⟨hwf, hinv⟩
      | none =>
        cases fault with
        | some err =>
          simp only [mapRepo]
          by_cases hnf : err = .ErrOrderNotFound
          · simp only [hnf, if_true]
            exact ⟨hwf, hinv⟩
          · simp only [hnf, if_false]
            exact ⟨hwf, hinv⟩
        | none =>
          simp only [mapRepo]
          cases hstore : mapIndex w.store orderUID with
          | none => exact ⟨hwf, hinv⟩
          | some fetched =>
            refine ⟨hwf, ?_⟩
            apply CacheBehindStore_set
            · intro k' v' _ hget'
              exact hinv k' v' hget'
            · exact hstore

theorem runOps_keeps_invariant (ops : List Op) (w : World Store) (hwf : StoreWF w.store)
    (hinv : CacheBehindStore w) :
    StoreWF (runOps ops w).store ∧ CacheBehindStore (runOps ops w) := by
  induction ops generalizing w with
  | nil => exact ⟨hwf, hinv⟩
  | cons op rest ih =>
    obtain ⟨hwf1, hinv1⟩ := Op.run_keeps_invariant op w hwf hinv
    exact ih (op.run w) hwf1 hinv1

/-- C9: in the sequential model, with the store a key→order map (rows keyed by their own
`orderUID`) that only `SaveOrder` changes and that a failed call leaves as it was, start from any
such store and an empty cache and run any sequence of `LoadFromRepository`, `HandleOrder` and
`GetOrder` calls, each with or without a store fault: every cache entry `(k, v)` is then the
store's current row for `k`. -/
theorem cache_never_ahead_of_store (store : Store) (hwf : StoreWF store) (ops : List Op)
    (k : String) (v : Order)
    (hcached : (runOps ops (World.init store)).cache.Get k = some v) :
    mapIndex (runOps ops (World.init store)).store k = some v := by
  have hinit : CacheBehindStore (World.init store) := by
    intro k' v' hget
    simp [World.init, NewMemoryCache, MemoryCache.Get, mapIndex] at hget
  exact (runOps_keeps_invariant ops (World.init store) hwf hinit).2 k v hcached

/-- C9, at a store holding the two sample orders: after an ingest that replaces the example
order, a read of the other order, a warm-up and an ingest that fails in the store, the cache
holds the replaced order under its key and so does the store. -/
theorem cache_never_ahead_of_store_witness :
    StoreWF sampleStore ∧
    (runOps
        [.HandleOrder { sampleOrder with Locale := "ru" } none,
         .GetOrder "test_order_12345" none,
         .LoadFromRepository none,
         .HandleOrder { sampleOrder with Locale := "de" } (some (.other "connection lost"))]
        (World.init sampleStore)).cache.Get "b563feb7b2b84b6test"
      = some { sampleOrder with Locale := "ru" } ∧
    mapIndex
        (runOps
          [.HandleOrder { sampleOrder with Locale := "ru" } none,
           .GetOrder "test_order_12345" none,
           .LoadFromRepository none,
           .HandleOrder { sampleOrder with Locale := "de" } (some (.other "connection lost"))]
          (World.init sampleStore)).store "b563feb7b2b84b6test"
      = some { sampleOrder with Locale := "ru" } :=
  ⟨⟨by decide, by decide⟩, by decide,
   cache_never_ahead_of_store sampleStore ⟨by decide, by decide⟩
     [.HandleOrder { sampleOrder with Locale := "ru" } none,
      .GetOrder "test_order_12345" none,
      .LoadFromRepository none,
      .HandleOrder { sampleOrder with Locale := "de" } (some (.other "connection lost"))]
     "b563feb7b2b84b6test" { sampleOrder with Locale := "ru" } (by decide)⟩

/-! ## Serialised `Set` calls -/

theorem mem_keys_mapAssign (m : List (String × Order)) (k k' : String) (v : Order) :
    k' ∈ (mapAssign m k v).map Prod.fst ↔ k' = k ∨ k' ∈ m.map Prod.fst := by
  simp only [mapAssign, List.map_cons, List.mem_cons]
  constructor
  · rintro (h | h)
    · exact Or.inl h
    · obtain ⟨e, he, hk⟩ := List.mem_map.mp h
      exact Or.inr (List.mem_map.mpr ⟨e, (List.mem_filter.mp he).1, hk⟩)
  · rintro (h | h)
    · exact Or.inl h
    · by_cases hkk : k' = k
      · exact Or.inl hkk
      · obtain ⟨e, he, hk⟩ := List.mem_map.mp h
        refine Or.inr (List.mem_map.mpr ⟨e, List.mem_filter.mpr ⟨he, ?_⟩, hk⟩)
        have : e.1 ≠ k := by rw [hk]; exact hkk
        simpa using this

theorem applySets_keys (calls : List (String × Order)) (c : MemoryCache)
    (hnd : (c.orders.map Prod.fst).Nodup) :
    ((applySets calls c).orders.map Prod.fst).Nodup ∧
    ∀ k, k ∈ (applySets calls c).orders.map Prod.fst
      ↔ k ∈ c.orders.map Prod.fst ∨ k ∈ calls.map Prod.fst := by
  induction calls generalizing c with
  | nil => simp [applySets, hnd]
  | cons e rest ih =>
    have hstep : ((c.Set e.1 e.2).orders.map Prod.fst).Nodup :=
      mapAssign_keys_nodup c.orders e.1 e.2 hnd
    obtain ⟨h1, h2⟩ := ih (c.Set e.1 e.2) hstep
    have hunfold : applySets (e :: rest) c = applySets rest (c.Set e.1 e.2) := rfl
    rw [hunfold]
    refine ⟨h1, ?_⟩
    intro k
    rw [h2 k]
    simp only [MemoryCache.Set, mem_keys_mapAssign, List.map_cons, List.mem_cons]
    tauto

theorem applySets_Get_of_not_written (calls : List (String × Order)) (c : MemoryCache)
    (k : String) (hk : ∀ e ∈ calls, e.1 ≠ k) : (applySets calls c).Get k = c.Get k := by
  induction calls generalizing c with
  | nil => rfl
  | cons e rest ih =>
    have hunfold : applySets (e :: rest) c = applySets rest (c.Set e.1 e.2) := rfl
    rw [hunfold, ih (c.Set e.1 e.2) (fun e' he' => hk e' (List.mem_cons_of_mem _ he'))]
    exact MemoryCache.Get_Set_ne c e.1 k e.2 (Ne.symm (hk e (List.mem_cons_self _ _)))

theorem applySets_append (xs ys : List (String × Order)) (c : MemoryCache) :
    applySets (xs ++ ys) c = applySets ys (applySets xs c) := by
  simp [applySets, List.foldl_append]

/-- C10: apply to an empty cache any serialisation of `Set` calls (any number per key). If the
keys written are the `N` pairwise distinct keys `keys`, then `Size()` is `N`; every key reads,
by `Get`, as the value of the last call that wrote it; and a single `Set` leaves the `Get` of
every other key as it was. -/
theorem Set_calls_keep_every_key (calls : List (String × Order)) :
    (∀ keys : List String, keys.Nodup → (∀ k, k ∈ keys ↔ k ∈ calls.map Prod.fst) →
      (applySets calls NewMemoryCache).Size = keys.length) ∧
    (∀ before after k v, calls = before ++ (k, v) :: after → (∀ e ∈ after, e.1 ≠ k) →
      (applySets calls NewMemoryCache).Get k = some v) ∧
    (∀ (c : MemoryCache) k v k', k' ≠ k → (c.Set k v).Get k' = c.Get k') := by
  refine ⟨?_, ?_, ?_⟩
  · intro keys hkeys hiff
    obtain ⟨hnd, hmem⟩ := applySets_keys calls NewMemoryCache (by simp [NewMemoryCache])
    have hperm : List.Perm ((applySets calls NewMemoryCache).orders.map Prod.fst) keys := by
      rw [List.perm_ext_iff_of_nodup hnd hkeys]
      intro k
      rw [hmem k, hiff k]
      simp [NewMemoryCache]
    have hlen := hperm.length_eq
    simpa [MemoryCache.Size] using hlen
  · intro before after k v hsplit hlast
    subst hsplit
    have hcons : applySets ((k, v) :: after) (applySets before NewMemoryCache)
        = applySets after ((applySets before NewMemoryCache).Set k v) := rfl
    rw [applySets_append, hcons, applySets_Get_of_not_written after _ k hlast]
    exact MemoryCache.Get_Set_self _ k v
  · intro c k v k' hne
    exact MemoryCache.Get_Set_ne c k k' v hne

/-- C10, at five calls on two keys, interleaved: the size is 2 and each key reads as the value
of its last call. -/
theorem Set_calls_keep_every_key_witness :
    (applySets
        [("a", sampleOrder), ("b", sampleOrder2), ("a", sampleOrder2), ("b", sampleOrder),
         ("a", { sampleOrder with Locale := "fr" })] NewMemoryCache).Size = 2 ∧
    (applySets
        [("a", sampleOrder), ("b", sampleOrder2), ("a", sampleOrder2), ("b", sampleOrder),
         ("a", { sampleOrder with Locale := "fr" })] NewMemoryCache).Get "b"
      = some sampleOrder ∧
    (applySets
        [("a", sampleOrder), ("b", sampleOrder2), ("a", sampleOrder2), ("b", sampleOrder),
         ("a", { sampleOrder with Locale := "fr" })] NewMemoryCache).Get "a"
      = some { sampleOrder with Locale := "fr" } :=
  have h := Set_calls_keep_every_key
    [("a", sampleOrder), ("b", sampleOrder2), ("a", sampleOrder2), ("b", sampleOrder),
     ("a", { sampleOrder with Locale := "fr" })]
  ⟨h.1 ["a", "b"] (by decide) (by simp; tauto),
   h.2.1 [("a", sampleOrder), ("b", sampleOrder2), ("a", sampleOrder2)]
     [("a", { sampleOrder with Locale := "fr" })] "b" sampleOrder rfl (by simp),
   h.2.1 [("a", sampleOrder), ("b", sampleOrder2), ("a", sampleOrder2), ("b", sampleOrder)]
     [] "a" { sampleOrder with Locale := "fr" } rfl (by simp)⟩

/-! ## `GetAll` returns a map of its own -/

theorem CopyOp.run_spec {σ : Type} (repo : OrderRepository σ) (result : Nat) (op : CopyOp)
    (s : σ) (h : Heap) (c : MemoryCacheRef)
    (hc : h.allocated c.orders) (hr : h.allocated result) (hne : result ≠ c.orders) :
    (CopyOp.run repo result op (s, h, c)).2.1.allocated
        (CopyOp.run repo result op (s, h, c)).2.2.orders ∧
    (CopyOp.run repo result op (s, h, c)).2.1.allocated result ∧
    result ≠ (CopyOp.run repo result op (s, h, c)).2.2.orders ∧
    (CopyOp.run repo result op (s, h, c)).2.1.read result = op.onResult (h.read result) ∧
    ((CopyOp.run repo result op (s, h, c)).1,
      (CopyOp.run repo result op (s, h, c)).2.2.view (CopyOp.run repo result op (s, h, c)).2.1)
      = op.onCache repo (s, c.view h) := by
  have hne' : c.orders ≠ result := Ne.symm hne
  cases op with
  | cacheSet orderUID order =>
    refine ⟨hc, hr, hne, ?_, ?_⟩
    · exact Heap.read_write_ne _ _ _ _ hne
    · simp [CopyOp.run, CopyOp.onCache, MemoryCacheRef.view, MemoryCacheRef.Set,
        MemoryCache.Set, Heap.read_write_same]
  | cacheDelete orderUID =>
    refine ⟨hc, hr, hne, ?_, ?_⟩
    · exact Heap.read_write_ne _ _ _ _ hne
    · simp [CopyOp.run, CopyOp.onCache, MemoryCacheRef.view, MemoryCacheRef.Delete,
        MemoryCache.Delete, Heap.read_write_same]
  | cacheClear =>
    refine ⟨?_, ?_, ?_, ?_, ?_⟩
    · exact Nat.lt_succ_self h.next
    · exact Nat.lt_succ_of_lt hr
    · exact Nat.ne_of_lt hr
    · exact Heap.read_make_old h result hr
    · simp only [CopyOp.run, CopyOp.onCache, MemoryCacheRef.view, MemoryCacheRef.Clear,
        MemoryCache.Clear]
      rw [Heap.read_make_new]
  | cacheLoadFromRepository =>
    simp only [CopyOp.run, CopyOp.onCache, MemoryCacheRef.LoadFromRepository,
      MemoryCache.LoadFromRepository, MemoryCacheRef.view]
    rcases hall : repo.GetAllOrders s with ⟨res, s1⟩
    cases res with
    | error err => exact ⟨hc, hr, hne, rfl, rfl⟩
    | ok orders =>
      obtain ⟨h1, h2, h3⟩ := Heap.foldl_assign c.orders orders h
      refine ⟨?_, ?_, hne, ?_, ?_⟩
      · simp only [Heap.allocated]
        rw [h3]
        exact hc
      · simp only [Heap.allocated]
        rw [h3]
        exact hr
      · exact h2 result hne
      · simp only [h1]
  | resultAssign key order =>
    refine ⟨hc, hr, hne, ?_, ?_⟩
    · exact Heap.read_write_same _ _ _
    · simp [CopyOp.run, CopyOp.onCache, MemoryCacheRef.view, Heap.read_write_ne _ _ _ _ hne']
  | resultDelete key =>
    refine ⟨hc, hr, hne, ?_, ?_⟩
    · exact Heap.read_write_same _ _ _
    · simp [CopyOp.run, CopyOp.onCache, MemoryCacheRef.view, Heap.read_write_ne _ _ _ _ hne']

theorem CopyOp.runAll_spec {σ : Type} (repo : OrderRepository σ) (result : Nat)
    (ops : List CopyOp) (s : σ) (h : Heap) (c : MemoryCacheRef)
    (hc : h.allocated c.orders) (hr : h.allocated result) (hne : result ≠ c.orders) :
    (CopyOp.runAll repo result ops (s, h, c)).2.1.read result
      = ops.foldl (fun m op => op.onResult m) (h.read result) ∧
    ((CopyOp.runAll repo result ops (s, h, c)).1,
      (CopyOp.runAll repo result ops (s, h, c)).2.2.view
        (CopyOp.runAll repo result ops (s, h, c)).2.1)
      = ops.foldl (fun st op => op.onCache repo st) (s, c.view h) := by
  induction ops generalizing s h c with
  | nil => exact ⟨rfl, rfl⟩
  | cons op rest ih =>
    obtain ⟨h1, h2, h3, h4, h5⟩ := CopyOp.run_spec repo result op s h c hc hr hne
    rcases hstep : CopyOp.run repo result op (s, h, c) with ⟨s1, hp1, c1⟩
    rw [hstep] at h1 h2 h3 h4 h5
    obtain ⟨ih1, ih2⟩ := ih s1 hp1 c1 h1 h2 h3
    simp only [CopyOp.runAll, List.foldl_cons, hstep] at ih1 ih2 ⊢
    rw [ih1, ih2, h4, ← h5]
    exact ⟨rfl, rfl⟩

theorem CopyOp.foldl_onResult_cacheSide (ops : List CopyOp) (m : List (String × Order))
    (hops : ∀ op ∈ ops, op.onCacheSide = true) :
    ops.foldl (fun m op => op.onResult m) m = m := by
  induction ops generalizing m with
  | nil => rfl
  | cons op rest ih =>
    have hop := hops op (List.mem_cons_self _ _)
    have hrest := fun m' => ih m' (fun o ho => hops o (List.mem_cons_of_mem _ ho))
    cases op <;> simp_all [CopyOp.onResult, CopyOp.onCacheSide]

theorem CopyOp.foldl_onCache_resultSide {σ : Type} (repo : OrderRepository σ)
    (ops : List CopyOp) (st : σ × MemoryCache)
    (hops : ∀ op ∈ ops, op.onCacheSide = false) :
    ops.foldl (fun st op => op.onCache repo st) st = st := by
  induction ops generalizing st with
  | nil => rfl
  | cons op rest ih =>
    have hop := hops op (List.mem_cons_self _ _)
    have hrest := fun st' => ih st' (fun o ho => hops o (List.mem_cons_of_mem _ ho))
    cases op <;> simp_all [CopyOp.onCache, CopyOp.onCacheSide]

/-- C11: `GetAll` returns a map that holds exactly the entries of the cache at the time of the
call (same entries, so the same `Get` answer for every key and the same size), through a
reference that was not handed out before, so it is not the cache's own map, and the call leaves
the cache as it was. After it, in any interleaving of cache calls (`Set`, `Delete`, `Clear`,
`LoadFromRepository`) with additions and removals of keys in the returned map, the returned map
is what the additions and removals alone make of the copy, and the cache is what the cache
calls alone make of the cache. So later cache calls leave the returned map unchanged, and
adding or removing keys in the returned map leaves every `Get` and `Size` of the cache
unchanged. -/
theorem GetAll_returns_independent_copy {σ : Type} (repo : OrderRepository σ) (s : σ)
    (h : Heap) (c : MemoryCacheRef) (hc : h.allocated c.orders)
    (hkeys : ((h.read c.orders).map Prod.fst).Nodup) (ops : List CopyOp) :
    (c.GetAll h).2.read (c.GetAll h).1 = h.read c.orders ∧
    (∀ k, mapIndex ((c.GetAll h).2.read (c.GetAll h).1) k = c.Get k h) ∧
    ((c.GetAll h).2.read (c.GetAll h).1).length = c.Size h ∧
    (c.GetAll h).1 ≠ c.orders ∧
    ¬ h.allocated (c.GetAll h).1 ∧
    c.view (c.GetAll h).2 = c.view h ∧
    (CopyOp.runAll repo (c.GetAll h).1 ops (s, (c.GetAll h).2, c)).2.1.read (c.GetAll h).1
      = ops.foldl (fun m op => op.onResult m) (h.read c.orders) ∧
    ((CopyOp.runAll repo (c.GetAll h).1 ops (s, (c.GetAll h).2, c)).1,
      (CopyOp.runAll repo (c.GetAll h).1 ops (s, (c.GetAll h).2, c)).2.2.view
        (CopyOp.runAll repo (c.GetAll h).1 ops (s, (c.GetAll h).2, c)).2.1)
      = ops.foldl (fun st op => op.onCache repo st) (s, c.view h) ∧
    ((∀ op ∈ ops, op.onCacheSide = true) →
      (CopyOp.runAll repo (c.GetAll h).1 ops (s, (c.GetAll h).2, c)).2.1.read (c.GetAll h).1
        = (c.GetAll h).2.read (c.GetAll h).1) ∧
    ((∀ op ∈ ops, op.onCacheSide = false) →
      ∀ k,
        (CopyOp.runAll repo (c.GetAll h).1 ops (s, (c.GetAll h).2, c)).2.2.Get k
            (CopyOp.runAll repo (c.GetAll h).1 ops (s, (c.GetAll h).2, c)).2.1 = c.Get k h ∧
        (CopyOp.runAll repo (c.GetAll h).1 ops (s, (c.GetAll h).2, c)).2.2.Size
            (CopyOp.runAll repo (c.GetAll h).1 ops (s, (c.GetAll h).2, c)).2.1 = c.Size h) := by
  obtain ⟨hres, hnext, hcontent, hframe⟩ := MemoryCacheRef.GetAll_spec c h hc
  have hcopy : (c.GetAll h).2.read (c.GetAll h).1 = h.read c.orders := by
    rw [hcontent]
    exact foldr_mapAssign_nodup (h.read c.orders) hkeys
  have hfresh : (c.GetAll h).1 ≠ c.orders := by
    rw [hres]
    exact Ne.symm (Nat.ne_of_lt hc)
  have hview : c.view (c.GetAll h).2 = c.view h := by
    simp only [MemoryCacheRef.view]
    rw [hframe c.orders hc]
  have hc1 : (c.GetAll h).2.allocated c.orders := by
    simp only [Heap.allocated]
    rw [hnext]
    exact Nat.lt_succ_of_lt hc
  have hr1 : (c.GetAll h).2.allocated (c.GetAll h).1 := by
    simp only [Heap.allocated]
    rw [hnext, hres]
    exact Nat.lt_succ_self h.next
  obtain ⟨hrun1, hrun2⟩ :=
    CopyOp.runAll_spec repo (c.GetAll h).1 ops s (c.GetAll h).2 c hc1 hr1 hfresh
  rw [hcopy] at hrun1
  rw [hview] at hrun2
  refine ⟨hcopy, ?_, ?_, hfresh, ?_, hview, hrun1, hrun2, ?_, ?_⟩
  · intro k
    rw [hcopy]
    unfold MemoryCacheRef.Get
    cases mapIndex (h.read c.orders) k <;> rfl
  · rw [hcopy]
    rfl
  · rw [hres]
    exact Nat.lt_irrefl h.next
  · intro hops
    rw [hrun1, hcopy]
    exact CopyOp.foldl_onResult_cacheSide ops _ hops
  · intro hops k
    rw [CopyOp.foldl_onCache_resultSide repo ops _ hops] at hrun2
    have hv := congrArg Prod.snd hrun2
    simp only at hv
    constructor
    · exact congrArg (fun m => MemoryCache.Get m k) hv
    · exact congrArg MemoryCache.Size hv

/-- C11, at the example cache holding the two sample orders: the map that `GetAll` returns
still holds both orders after a `Set`, a `Delete`, a `Clear` and a `LoadFromRepository` on the
cache, and the cache still finds the example order and has size 2 after the caller removed that
key from the returned map and added another. -/
theorem GetAll_returns_independent_copy_witness :
    sampleHeap.allocated sampleCacheRef.orders ∧
    ((sampleHeap.read sampleCacheRef.orders).map Prod.fst).Nodup ∧
    (CopyOp.runAll (snapshotRepo [sampleOrder2]) (sampleCacheRef.GetAll sampleHeap).1
        [.cacheSet "b563feb7b2b84b6test" { sampleOrder with Locale := "fr" },
         .cacheDelete "test_order_12345", .cacheClear, .cacheLoadFromRepository]
        ((), (sampleCacheRef.GetAll sampleHeap).2, sampleCacheRef)).2.1.read
        (sampleCacheRef.GetAll sampleHeap).1
      = [("test_order_12345", sampleOrder2), ("b563feb7b2b84b6test", sampleOrder)] ∧
    (CopyOp.runAll (snapshotRepo [sampleOrder2]) (sampleCacheRef.GetAll sampleHeap).1
        [.resultDelete "b563feb7b2b84b6test", .resultAssign "another" sampleOrder2]
        ((), (sampleCacheRef.GetAll sampleHeap).2, sampleCacheRef)).2.2.Get
        "b563feb7b2b84b6test"
        (CopyOp.runAll (snapshotRepo [sampleOrder2]) (sampleCacheRef.GetAll sampleHeap).1
          [.resultDelete "b563feb7b2b84b6test", .resultAssign "another" sampleOrder2]
          ((), (sampleCacheRef.GetAll sampleHeap).2, sampleCacheRef)).2.1
      = some sampleOrder ∧
    (CopyOp.runAll (snapshotRepo [sampleOrder2]) (sampleCacheRef.GetAll sampleHeap).1
        [.resultDelete "b563feb7b2b84b6test", .resultAssign "another" sampleOrder2]
        ((), (sampleCacheRef.GetAll sampleHeap).2, sampleCacheRef)).2.2.Size
        (CopyOp.runAll (snapshotRepo [sampleOrder2]) (sampleCacheRef.GetAll sampleHeap).1
          [.resultDelete "b563feb7b2b84b6test", .resultAssign "another" sampleOrder2]
          ((), (sampleCacheRef.GetAll sampleHeap).2, sampleCacheRef)).2.1
      = 2 :=
  have halloc : sampleHeap.allocated sampleCacheRef.orders := by
    show (0 : Nat) < 1
    decide
  have hkeys : ((sampleHeap.read sampleCacheRef.orders).map Prod.fst).Nodup := by decide
  have hcache := GetAll_returns_independent_copy (snapshotRepo [sampleOrder2]) () sampleHeap
    sampleCacheRef halloc hkeys
    [.cacheSet "b563feb7b2b84b6test" { sampleOrder with Locale := "fr" },
     .cacheDelete "test_order_12345", .cacheClear, .cacheLoadFromRepository]
  have hcaller := GetAll_returns_independent_copy (snapshotRepo [sampleOrder2]) () sampleHeap
    sampleCacheRef halloc hkeys
    [.resultDelete "b563feb7b2b84b6test", .resultAssign "another" sampleOrder2]
  ⟨halloc, hkeys,
   (hcache.2.2.2.2.2.2.2.2.1 (by decide)).trans (hcache.1.trans (by decide)),
   ((hcaller.2.2.2.2.2.2.2.2.2 (by decide) "b563feb7b2b84b6test").1).trans (by decide),
   ((hcaller.2.2.2.2.2.2.2.2.2 (by decide) "b563feb7b2b84b6test").2).trans (by decide)⟩

/-! ## Cache warm-up: `LoadFromRepository` and `HealthCheck` -/

theorem foldl_mapAssign_eq_applySets (orders : List Order) (c : MemoryCache) :
    orders.foldl (fun m order => mapAssign m order.OrderUID order) c.orders
      = (applySets (orders.map (fun order => (order.OrderUID, order))) c).orders := by
  induction orders generalizing c with
  | nil => rfl
  | cons o rest ih =>
    have hstep := ih (c.Set o.OrderUID o)
    simp only [List.foldl_cons, List.map_cons, applySets] at hstep ⊢
    exact hstep

theorem applySets_Get_of_mem_nodup (orders : List Order) (c : MemoryCache) (o : Order)
    (hnd : (orders.map (fun order => order.OrderUID)).Nodup) (hmem : o ∈ orders) :
    (applySets (orders.map (fun order => (order.OrderUID, order))) c).Get o.OrderUID
      = some o := by
  obtain ⟨before, after, hsplit⟩ := List.append_of_mem hmem
  subst hsplit
  have hafter : ∀ e ∈ after.map (fun order => (order.OrderUID, order)), e.1 ≠ o.OrderUID := by
    intro e he
    obtain ⟨x, hx, rfl⟩ := List.mem_map.mp he
    intro heq
    simp only [List.map_append, List.map_cons] at hnd
    have hnd2 := (List.nodup_append.mp hnd).2.1
    exact (List.nodup_cons.mp hnd2).1 (List.mem_map.mpr ⟨x, hx, heq⟩)
  have hcons : applySets ((o.OrderUID, o) :: after.map (fun order => (order.OrderUID, order)))
      (applySets (before.map (fun order => (order.OrderUID, order))) c)
      = applySets (after.map (fun order => (order.OrderUID, order)))
          ((applySets (before.map (fun order => (order.OrderUID, order))) c).Set
            o.OrderUID o) := rfl
  rw [List.map_append, List.map_cons, applySets_append, hcons,
    applySets_Get_of_not_written _ _ _ hafter]
  exact MemoryCache.Get_Set_self _ _ _

theorem applySets_Size_of_nodup (orders : List Order)
    (hnd : (orders.map (fun order => order.OrderUID)).Nodup) :
    (applySets (orders.map (fun order => (order.OrderUID, order))) NewMemoryCache).Size
      = orders.length := by
  obtain ⟨hkeys, hmem⟩ :=
    applySets_keys (orders.map (fun order => (order.OrderUID, order))) NewMemoryCache
      (by simp [NewMemoryCache])
  have hperm : List.Perm
      ((applySets (orders.map (fun order => (order.OrderUID, order)))
        NewMemoryCache).orders.map Prod.fst)
      (orders.map (fun order => order.OrderUID)) := by
    rw [List.perm_ext_iff_of_nodup hkeys hnd]
    intro k
    rw [hmem k]
    simp [NewMemoryCache]
  have hlen := hperm.length_eq
  simpa [MemoryCache.Size] using hlen

/-- C12: if `GetAllOrders` fails, `LoadFromRepository` returns that error and the cache is the
cache before the call. If it returns `n` orders with pairwise distinct `OrderUID`s, the call
returns nil and every one of the orders is found by `Get` under its own `OrderUID`; when the
cache was empty before the call, `Size()` is then `n` and `HealthCheck` answers 200 with status
`ok` and `cache_size` `n`. -/
theorem LoadFromRepository_warms_cache {σ : Type} (repo : OrderRepository σ) (w : World σ) :
    (∀ err, (repo.GetAllOrders w.store).1 = .error err →
      (MemoryCache.LoadFromRepository repo w).1 = .error err ∧
      (MemoryCache.LoadFromRepository repo w).2.cache = w.cache) ∧
    (∀ orders, (repo.GetAllOrders w.store).1 = .ok orders →
      (orders.map (fun order => order.OrderUID)).Nodup →
      (MemoryCache.LoadFromRepository repo w).1 = .ok () ∧
      (∀ o ∈ orders,
        (MemoryCache.LoadFromRepository repo w).2.cache.Get o.OrderUID = some o) ∧
      (w.cache = NewMemoryCache →
        (MemoryCache.LoadFromRepository repo w).2.cache.Size = orders.length ∧
        (HTTPHandler.HealthCheck (MemoryCache.LoadFromRepository repo w).2).1
          = { statusCode := 200, contentType := "application/json",
              body := .object [("cache_size", .int orders.length), ("status", .str "ok")]
              : Response })) := by
  rcases hall : repo.GetAllOrders w.store with ⟨res, s⟩
  constructor
  · intro err herr
    simp only at herr
    subst herr
    simp [MemoryCache.LoadFromRepository, hall]
  · intro orders hok hnd
    simp only at hok
    subst hok
    have hcache : (MemoryCache.LoadFromRepository repo w).2.cache
        = applySets (orders.map (fun order => (order.OrderUID, order))) w.cache := by
      simp only [MemoryCache.LoadFromRepository, hall]
      rw [foldl_mapAssign_eq_applySets]
    refine ⟨?_, ?_, ?_⟩
    · simp [MemoryCache.LoadFromRepository, hall]
    · intro o ho
      rw [hcache]
      exact applySets_Get_of_mem_nodup orders w.cache o hnd ho
    · intro hempty
      have hsize : (MemoryCache.LoadFromRepository repo w).2.cache.Size = orders.length := by
        rw [hcache, hempty]
        exact applySets_Size_of_nodup orders hnd
      refine ⟨hsize, ?_⟩
      simp only [HTTPHandler.HealthCheck, HTTPHandler.writeJSONResponse, hsize]

/-- C12, at a store holding the two sample orders and at a failing store: after the warm-up of
an empty cache both orders are found, `Size()` is 2 and `HealthCheck` reports status `ok` with
`cache_size` 2; after a failed warm-up the error is returned and the cache is still empty. -/
theorem LoadFromRepository_warms_cache_witness :
    (MemoryCache.LoadFromRepository (mapRepo none) (World.init sampleStore)).2.cache.Get
        "b563feb7b2b84b6test" = some sampleOrder ∧
    (MemoryCache.LoadFromRepository (mapRepo none) (World.init sampleStore)).2.cache.Get
        "test_order_12345" = some sampleOrder2 ∧
    (MemoryCache.LoadFromRepository (mapRepo none) (World.init sampleStore)).2.cache.Size
      = 2 ∧
    (HTTPHandler.HealthCheck
        (MemoryCache.LoadFromRepository (mapRepo none) (World.init sampleStore)).2).1
      = { statusCode := 200, contentType := "application/json",
          body := .object [("cache_size", .int 2), ("status", .str "ok")] : Response } ∧
    (MemoryCache.LoadFromRepository (mapRepo (some (.other "connection refused")))
        (World.init sampleStore)).1 = .error (.other "connection refused") ∧
    (MemoryCache.LoadFromRepository (mapRepo (some (.other "connection refused")))
        (World.init sampleStore)).2.cache = NewMemoryCache :=
  have hok := (LoadFromRepository_warms_cache (mapRepo none) (World.init sampleStore)).2
    [sampleOrder, sampleOrder2] rfl (by decide)
  have hfail := (LoadFromRepository_warms_cache (mapRepo (some (.other "connection refused")))
    (World.init sampleStore)).1 (.other "connection refused") rfl
  ⟨hok.2.1 sampleOrder (by decide), hok.2.1 sampleOrder2 (by decide),
   (hok.2.2 rfl).1, (hok.2.2 rfl).2, hfail.1, hfail.2⟩

end OrderService
